import Mathlib

/-!
Verification of the message-to-action execution core of omni-bot-sdk.

The development shallowly embeds the components named by the specification:

* `TokenBucket` — the rate-limiting primitive of `rpa/controller.py`
  (`TokenBucket.__init__`, `_refill`, the `tokens` property, `consume`);
* `canSendMessage` / `rpaLoop` / `executeAction` — the dual-bucket gate and
  dispatch loop of `RPAController._can_send_message` / `execute_action`;
* `PluginSpec` / `processMessage` — the plugin chain of
  `plugins/plugin_manager.py` (`PluginManager.process_message`,
  `load_plugins`) over `PluginExcuteContext` of
  `plugins/core/plugin_interface.py`;
* `DispatchState` / `dstep` — the per-session dispatcher of
  `services/core/processor_service.py` together with the submission order of
  `services/core/async_plugin_runner.py`.

Python float arithmetic on times and token counts is modelled with `ℚ`;
Python exceptions raised by externally supplied code (plugins, actuator
handlers) are modelled as an explicit `Option`/`Except` error channel while
keeping the state mutations that happened before the raise.
-/

namespace OmniBot

/-! ### Token bucket (`rpa/controller.py`, class `TokenBucket`) -/

/-- State of one token bucket: `_rate`, `_capacity`, `_tokens`,
`_last_update` of the Python class. -/
structure TokenBucket where
  rate : ℚ
  capacity : ℚ
  tokens : ℚ
  last_update : ℚ
  deriving Repr, DecidableEq

/-- `TokenBucket.__init__`: the bucket starts with `_tokens = capacity` and
`_last_update = time.monotonic()` (passed in as `now`). -/
def TokenBucket.init (rate capacity now : ℚ) : TokenBucket :=
  { rate := rate, capacity := capacity, tokens := capacity, last_update := now }

/-- `TokenBucket._refill` at wall-clock time `now`: when `elapsed > 0`,
`_tokens := min(_capacity, _tokens + elapsed * _rate)` and
`_last_update := now`; otherwise no change. -/
def TokenBucket.refill (b : TokenBucket) (now : ℚ) : TokenBucket :=
  if 0 < now - b.last_update then
    { b with tokens := min b.capacity (b.tokens + (now - b.last_update) * b.rate),
             last_update := now }
  else b

/-- The `tokens` property: refills, then returns the current count together
with the mutated bucket. -/
def TokenBucket.readTokens (b : TokenBucket) (now : ℚ) : ℚ × TokenBucket :=
  let b' := b.refill now
  (b'.tokens, b')

/-- `TokenBucket.consume`: note that the source checks `self._tokens`
directly and does not call `_refill` first. -/
def TokenBucket.consume (b : TokenBucket) (amount : ℚ) : Bool × TokenBucket :=
  if amount ≤ b.tokens then (true, { b with tokens := b.tokens - amount })
  else (false, b)

/-- Modelled from the spec: the spec's §4.4 words for `consume(n)` ("calls
`refill()` then, if `tokens >= n`, subtracts `n` and returns true, else
returns false"), stated for comparison with the source's
`TokenBucket.consume`, which performs no refill. -/
def TokenBucket.consumeSpec (b : TokenBucket) (amount now : ℚ) : Bool × TokenBucket :=
  let b' := b.refill now
  if amount ≤ b'.tokens then (true, { b' with tokens := b'.tokens - amount })
  else (false, b')

/-- One externally observable token-bucket operation, each tagged with the
monotonic clock value at which it happens where the source reads the clock. -/
inductive BucketOp where
  | refillOp (now : ℚ)
  | readOp (now : ℚ)
  | consumeOp (amount : ℚ)
  deriving Repr, DecidableEq

/-- Apply one operation to a bucket, keeping only the bucket state. -/
def applyOp (b : TokenBucket) : BucketOp → TokenBucket
  | .refillOp now => b.refill now
  | .readOp now => (b.readTokens now).2
  | .consumeOp n => (b.consume n).2

/-- Run a sequence of bucket operations. -/
def runOps (b : TokenBucket) (ops : List BucketOp) : TokenBucket :=
  ops.foldl applyOp b

/-- `true` unless the operation is a `consume` of a negative amount (the
source only ever consumes `1`). -/
def BucketOp.nonNegConsume : BucketOp → Bool
  | .consumeOp n => decide (0 ≤ n)
  | _ => true

/-! Basic bucket lemmas. -/

theorem refill_rate (b : TokenBucket) (now : ℚ) : (b.refill now).rate = b.rate := by
  unfold TokenBucket.refill
  split <;> rfl

theorem refill_capacity (b : TokenBucket) (now : ℚ) :
    (b.refill now).capacity = b.capacity := by
  unfold TokenBucket.refill
  split <;> rfl

theorem consume_rate (b : TokenBucket) (n : ℚ) : (b.consume n).2.rate = b.rate := by
  unfold TokenBucket.consume
  split <;> rfl

theorem consume_capacity (b : TokenBucket) (n : ℚ) :
    (b.consume n).2.capacity = b.capacity := by
  unfold TokenBucket.consume
  split <;> rfl

/-- Refilling never lowers the token count, provided the count does not
already exceed the capacity and the rate is non-negative. -/
theorem refill_mono (b : TokenBucket) (now : ℚ) (hcap : b.tokens ≤ b.capacity)
    (hrate : 0 ≤ b.rate) : b.tokens ≤ (b.refill now).tokens := by
  unfold TokenBucket.refill
  split
  · rename_i helapsed
    simp only [le_min_iff]
    constructor
    · exact hcap
    · nlinarith
  · exact le_rfl

/-- Refilling keeps the token count within `[0, capacity]`. -/
theorem refill_bounds (b : TokenBucket) (now : ℚ) (h0 : 0 ≤ b.tokens)
    (hcap : b.tokens ≤ b.capacity) (hrate : 0 ≤ b.rate) :
    0 ≤ (b.refill now).tokens ∧ (b.refill now).tokens ≤ b.capacity := by
  unfold TokenBucket.refill
  split
  · rename_i helapsed
    constructor
    · simp only [le_min_iff]
      constructor
      · linarith
      · nlinarith
    · simp only [min_le_iff]
      exact Or.inl le_rfl
  · exact ⟨h0, hcap⟩

/-- Consuming keeps the token count within `[0, capacity]` when the amount is
non-negative. -/
theorem consume_bounds (b : TokenBucket) (n : ℚ) (h0 : 0 ≤ b.tokens)
    (hcap : b.tokens ≤ b.capacity) (hn : 0 ≤ n) :
    0 ≤ (b.consume n).2.tokens ∧ (b.consume n).2.tokens ≤ b.capacity := by
  unfold TokenBucket.consume
  split
  · rename_i hle
    constructor
    · simpa using hle
    · simp only
      linarith
  · exact ⟨h0, hcap⟩

/-- One operation preserves rate and capacity and keeps the token count
within `[0, capacity]`. -/
theorem applyOp_invariant (b : TokenBucket) (op : BucketOp) (h0 : 0 ≤ b.tokens)
    (hcap : b.tokens ≤ b.capacity) (hrate : 0 ≤ b.rate)
    (hop : op.nonNegConsume = true) :
    (applyOp b op).rate = b.rate ∧ (applyOp b op).capacity = b.capacity ∧
      0 ≤ (applyOp b op).tokens ∧ (applyOp b op).tokens ≤ b.capacity := by
  cases op with
  | refillOp now =>
    exact ⟨refill_rate b now, refill_capacity b now,
      (refill_bounds b now h0 hcap hrate).1, (refill_bounds b now h0 hcap hrate).2⟩
  | readOp now =>
    exact ⟨refill_rate b now, refill_capacity b now,
      (refill_bounds b now h0 hcap hrate).1, (refill_bounds b now h0 hcap hrate).2⟩
  | consumeOp n =>
    have hn : 0 ≤ n := by simpa [BucketOp.nonNegConsume] using hop
    exact ⟨consume_rate b n, consume_capacity b n,
      (consume_bounds b n h0 hcap hn).1, (consume_bounds b n h0 hcap hn).2⟩

/-- Running any sequence of operations preserves rate and capacity and keeps
the token count within `[0, capacity]`. -/
theorem runOps_invariant (ops : List BucketOp) (b : TokenBucket) (h0 : 0 ≤ b.tokens)
    (hcap : b.tokens ≤ b.capacity) (hrate : 0 ≤ b.rate)
    (hops : ops.all BucketOp.nonNegConsume = true) :
    (runOps b ops).rate = b.rate ∧ (runOps b ops).capacity = b.capacity ∧
      0 ≤ (runOps b ops).tokens ∧ (runOps b ops).tokens ≤ (runOps b ops).capacity := by
  induction ops generalizing b with
  | nil => exact ⟨rfl, rfl, h0, hcap⟩
  | cons op rest ih =>
    simp only [List.all_cons, Bool.and_eq_true] at hops
    have hstep := applyOp_invariant b op h0 hcap hrate hops.1
    have hcap' : (applyOp b op).tokens ≤ (applyOp b op).capacity := by
      rw [hstep.2.1]; exact hstep.2.2.2
    have hrate' : 0 ≤ (applyOp b op).rate := by rw [hstep.1]; exact hrate
    have hrest := ih (applyOp b op) hstep.2.2.1 hcap' hrate' hops.2
    have hrun : runOps b (op :: rest) = runOps (applyOp b op) rest := rfl
    rw [hrun]
    exact ⟨hrest.1.trans hstep.1, hrest.2.1.trans hstep.2.1, hrest.2.2⟩

/-- Claim C5: for a bucket constructed with capacity `C` and rate `R`
(`C, R ≥ 0`, only non-negative amounts consumed, as the source does), after
any sequence of refill / read / consume operations the token count stays in
`[0, C]`; moreover, once the bucket has been fully drained (`tokens = 0`), a
refill after `t ≥ 0` further seconds of elapsed time yields exactly
`min C (t * R)` tokens, never exceeding `C`. -/
theorem c5_token_bucket_conservation (R C t0 t : ℚ) (ops : List BucketOp)
    (hR : 0 ≤ R) (hC : 0 ≤ C) (ht : 0 ≤ t)
    (hops : ops.all BucketOp.nonNegConsume = true) :
    (0 ≤ (runOps (TokenBucket.init R C t0) ops).tokens ∧
      (runOps (TokenBucket.init R C t0) ops).tokens ≤ C) ∧
    ((runOps (TokenBucket.init R C t0) ops).tokens = 0 →
      ((runOps (TokenBucket.init R C t0) ops).refill
          ((runOps (TokenBucket.init R C t0) ops).last_update + t)).tokens = min C (t * R)) := by
  have hinv := runOps_invariant ops (TokenBucket.init R C t0) hC le_rfl hR hops
  set b := runOps (TokenBucket.init R C t0) ops with hb
  have hcapC : b.capacity = C := hinv.2.1
  have hrateR : b.rate = R := hinv.1
  refine ⟨⟨hinv.2.2.1, by rw [← hcapC]; exact hinv.2.2.2⟩, ?_⟩
  intro hzero
  unfold TokenBucket.refill
  rcases lt_or_eq_of_le ht with htpos | htzero
  · rw [if_pos (by linarith [show b.last_update + t - b.last_update = t by ring])]
    simp only [hzero, hcapC, hrateR]
    rw [show b.last_update + t - b.last_update = t by ring, zero_add]
  · rw [if_neg (by rw [show b.last_update + t - b.last_update = t by ring]; linarith)]
    rw [hzero, ← htzero, zero_mul]
    rw [min_eq_right hC]

/-- Claim C10: a bucket constructed with rate `R` and capacity `C` starts
full (`tokens = C`), so a first `consume n` with `n ≤ C` succeeds. -/
theorem c10_bucket_starts_full (R C t0 n : ℚ) (hn : n ≤ C) :
    (TokenBucket.init R C t0).tokens = C ∧
      ((TokenBucket.init R C t0).consume n).1 = true := by
  refine ⟨rfl, ?_⟩
  unfold TokenBucket.consume TokenBucket.init
  rw [if_pos]
  exact hn

/-- Witness for C10 at `R = 1`, `C = 2`, `t0 = 0`, `n = 2`. -/
theorem c10_bucket_starts_full_witness :
    (2 : ℚ) ≤ 2 ∧ ((TokenBucket.init 1 2 0).tokens = 2 ∧
      ((TokenBucket.init 1 2 0).consume 2).1 = true) :=
  ⟨by norm_num, c10_bucket_starts_full 1 2 0 2 (by norm_num)⟩

/-- Witness for C5 at `R = 1`, `C = 2`, `t0 = 0`, `t = 5`, after two unit
consumes (the bucket is fully drained, and the refill yields
`min 2 (5 * 1) = 2`). -/
theorem c5_token_bucket_conservation_witness :
    (0 ≤ (1 : ℚ) ∧ 0 ≤ (2 : ℚ) ∧ 0 ≤ (5 : ℚ) ∧
      ([BucketOp.consumeOp 1, BucketOp.consumeOp 1].all BucketOp.nonNegConsume = true)) ∧
    ((0 ≤ (runOps (TokenBucket.init 1 2 0) [BucketOp.consumeOp 1, BucketOp.consumeOp 1]).tokens ∧
      (runOps (TokenBucket.init 1 2 0) [BucketOp.consumeOp 1, BucketOp.consumeOp 1]).tokens ≤ 2) ∧
    ((runOps (TokenBucket.init 1 2 0) [BucketOp.consumeOp 1, BucketOp.consumeOp 1]).tokens = 0 →
      ((runOps (TokenBucket.init 1 2 0) [BucketOp.consumeOp 1, BucketOp.consumeOp 1]).refill
          ((runOps (TokenBucket.init 1 2 0)
            [BucketOp.consumeOp 1, BucketOp.consumeOp 1]).last_update + 5)).tokens
        = min 2 (5 * 1))) :=
  ⟨⟨by norm_num, by norm_num, by norm_num,
      by norm_num [List.all_cons, BucketOp.nonNegConsume]⟩,
    c5_token_bucket_conservation 1 2 0 5 [BucketOp.consumeOp 1, BucketOp.consumeOp 1]
      (by norm_num) (by norm_num) (by norm_num)
      (by norm_num [List.all_cons, BucketOp.nonNegConsume])⟩

/-- Counterexample to claim C4 as stated: `consume` does not refill first.
Fully drain a bucket of rate `1`, capacity `10` created at time `0`; at time
`5` a refill-then-consume (the spec's description, `consumeSpec`) would find
`5` tokens and succeed, but the source's `consume` returns `false` and
leaves the bucket unchanged, because no refill happens inside `consume`. -/
theorem c4_consume_no_refill_counterexample :
    (((TokenBucket.init 1 10 0).consume 10).2.tokens = 0) ∧
    ((((TokenBucket.init 1 10 0).consume 10).2.consumeSpec 1 5).1 = true) ∧
    ((((TokenBucket.init 1 10 0).consume 10).2.consume 1).1 = false) ∧
    ((((TokenBucket.init 1 10 0).consume 10).2.consume 1).2
       = ((TokenBucket.init 1 10 0).consume 10).2) := by
  refine ⟨?_, ?_, ?_, ?_⟩ <;>
    norm_num [TokenBucket.init, TokenBucket.consume, TokenBucket.consumeSpec,
      TokenBucket.refill]

/-- Claim C4 (amended): `consume(n)` performs no refill — it compares the
stored token count against `n` directly; if `tokens ≥ n` it subtracts
exactly `n` and returns `true`, else it returns `false` with the count
unchanged (no partial consumption), and in either case the bucket's
`_last_update`, rate and capacity are untouched. Refill happens only through
the `tokens` property read. -/
theorem c4_consume_amended (b : TokenBucket) (n : ℚ) :
    ((b.consume n).1 = decide (n ≤ b.tokens)) ∧
    ((b.consume n).2.tokens = if n ≤ b.tokens then b.tokens - n else b.tokens) ∧
    ((b.consume n).2.last_update = b.last_update) ∧
    ((b.consume n).2.rate = b.rate) ∧
    ((b.consume n).2.capacity = b.capacity) := by
  unfold TokenBucket.consume
  by_cases h : n ≤ b.tokens <;> simp [h]

/-! ### Rate-limited command executor (`rpa/controller.py`, `RPAController`) -/

/-- `RPAController._can_send_message` at clock value `now` (the body runs
under `rate_limiter_lock`, so the check-and-consume pair is atomic; `now` is
the clock read performed inside the `tokens` property).  Python's `and`
short-circuits: when the short-term check fails the long-term bucket is not
even refilled.  Returns the flag and both updated buckets. -/
def canSendMessage (st lt : TokenBucket) (now : ℚ) : Bool × TokenBucket × TokenBucket :=
  if 1 ≤ (st.refill now).tokens then
    if 1 ≤ (lt.refill now).tokens then
      (true, ((st.refill now).consume 1).2, ((lt.refill now).consume 1).2)
    else (false, st.refill now, lt.refill now)
  else (false, st.refill now, lt)

/-- An RPA action: its `action_type` tag (opaque, modelled as `ℕ`) and the
`is_send_message` flag of `RPAAction`. -/
structure RPAAction where
  action_type : ℕ
  is_send_message : Bool
  deriving Repr, DecidableEq

/-- An actuator handler body: may return a result or raise (`Except.error`). -/
def Handler : Type := RPAAction → Except String Bool

/-- The `try`/`except` around `handler.execute(action)`: an exception is
caught and surfaces as `False`. -/
def dispatchHandler (h : Handler) (a : RPAAction) : Bool :=
  match h a with
  | .ok b => b
  | .error _ => false

/-- The rate-limit wait loop of `RPAController.execute_action`:
`while not self._can_send_message(): if now - start > 10: return False;
sleep(1)`.  `clock i` is the monotonic clock value observed during iteration
`i` (`clock 0` is also the loop's `start_time`); `sleep(1)` makes
successive values at least one second apart.  Returns `none` when `fuel`
iterations were not enough (never reached under the clock hypothesis),
otherwise the loop outcome, the index of the final poll, and both buckets. -/
def rpaLoop (clock : ℕ → ℚ) : ℕ → ℕ → TokenBucket → TokenBucket →
    Option (Bool × ℕ × TokenBucket × TokenBucket)
  | 0, _, _, _ => none
  | fuel + 1, i, st, lt =>
    match canSendMessage st lt (clock i) with
    | (true, st', lt') => some (true, i, st', lt')
    | (false, st', lt') =>
      if 10 < clock i - clock 0 then some (false, i, st', lt')
      else rpaLoop clock fuel (i + 1) st' lt'

/-- `RPAController.execute_action`.  Looks up the handler in
`action_handlers` (unregistered kinds fail fast), runs the rate-limit wait
loop for send-message actions, then dispatches inside `try`/`except`.
Returns `(result, handlerInvoked)`; the second component instruments whether
the handler was invoked.  The randomized pre-dispatch delay does not change
any returned value and is not modelled. -/
def executeAction (handlers : ℕ → Option Handler) (action : RPAAction)
    (clock : ℕ → ℚ) (fuel : ℕ) (st lt : TokenBucket) : Option (Bool × Bool) :=
  match handlers action.action_type, action.is_send_message with
  | none, _ => some (false, false)
  | some h, false => some (dispatchHandler h action, true)
  | some h, true =>
    match rpaLoop clock fuel 0 st lt with
    | none => none
    | some (false, _, _, _) => some (false, false)
    | some (true, _, _, _) => some (dispatchHandler h action, true)

/-- Claim C6: one `_can_send_message` call returns `true` exactly when both
buckets hold at least one token (after their lazy refill at the time of the
check); in that case it consumes exactly one token from each; otherwise it
returns `false` and neither bucket's token count decreases.  The hypotheses
are the bucket invariant (count within capacity, non-negative rate), which
`runOps_invariant` maintains. -/
theorem c6_dual_bucket_consume (st lt : TokenBucket) (now : ℚ)
    (hst : st.tokens ≤ st.capacity) (hlt : lt.tokens ≤ lt.capacity)
    (hsr : 0 ≤ st.rate) (hlr : 0 ≤ lt.rate) :
    ((canSendMessage st lt now).1
        = (decide (1 ≤ (st.refill now).tokens) && decide (1 ≤ (lt.refill now).tokens))) ∧
    ((canSendMessage st lt now).1 = true →
      (canSendMessage st lt now).2.1.tokens = (st.refill now).tokens - 1 ∧
      (canSendMessage st lt now).2.2.tokens = (lt.refill now).tokens - 1) ∧
    ((canSendMessage st lt now).1 = false →
      st.tokens ≤ (canSendMessage st lt now).2.1.tokens ∧
      lt.tokens ≤ (canSendMessage st lt now).2.2.tokens) := by
  unfold canSendMessage
  by_cases hs : 1 ≤ (st.refill now).tokens
  · by_cases hl : 1 ≤ (lt.refill now).tokens
    · simp only [hs, hl, if_pos]
      refine ⟨by simp [hs, hl], ?_, ?_⟩
      · intro _
        constructor
        · unfold TokenBucket.consume
          rw [if_pos hs]
        · unfold TokenBucket.consume
          rw [if_pos hl]
      · intro hfalse
        simp at hfalse
    · simp only [hs, if_pos, hl, if_neg, if_false]
      refine ⟨by simp [hs, hl], by intro h; simp at h, ?_⟩
      intro _
      exact ⟨refill_mono st now hst hsr, refill_mono lt now hlt hlr⟩
  · simp only [hs, if_neg, if_false]
    refine ⟨by simp [hs], by intro h; simp at h, ?_⟩
    intro _
    exact ⟨refill_mono st now hst hsr, le_rfl⟩

/-- Witness for C6: both buckets full (constructed at time `0`, checked at
time `0`), so the check succeeds and one token is consumed from each. -/
theorem c6_dual_bucket_consume_witness :
    ((TokenBucket.init 1 2 0).tokens ≤ (TokenBucket.init 1 2 0).capacity ∧
      (TokenBucket.init 1 4 0).tokens ≤ (TokenBucket.init 1 4 0).capacity ∧
      0 ≤ (TokenBucket.init 1 2 0).rate ∧ 0 ≤ (TokenBucket.init 1 4 0).rate) ∧
    ((canSendMessage (TokenBucket.init 1 2 0) (TokenBucket.init 1 4 0) 0).1
        = (decide (1 ≤ ((TokenBucket.init 1 2 0).refill 0).tokens)
            && decide (1 ≤ ((TokenBucket.init 1 4 0).refill 0).tokens))) ∧
    ((canSendMessage (TokenBucket.init 1 2 0) (TokenBucket.init 1 4 0) 0).1 = true →
      (canSendMessage (TokenBucket.init 1 2 0) (TokenBucket.init 1 4 0) 0).2.1.tokens
          = ((TokenBucket.init 1 2 0).refill 0).tokens - 1 ∧
      (canSendMessage (TokenBucket.init 1 2 0) (TokenBucket.init 1 4 0) 0).2.2.tokens
          = ((TokenBucket.init 1 4 0).refill 0).tokens - 1) ∧
    ((canSendMessage (TokenBucket.init 1 2 0) (TokenBucket.init 1 4 0) 0).1 = false →
      (TokenBucket.init 1 2 0).tokens
          ≤ (canSendMessage (TokenBucket.init 1 2 0) (TokenBucket.init 1 4 0) 0).2.1.tokens ∧
      (TokenBucket.init 1 4 0).tokens
          ≤ (canSendMessage (TokenBucket.init 1 2 0) (TokenBucket.init 1 4 0) 0).2.2.tokens) :=
  ⟨⟨le_rfl, le_rfl, by norm_num [TokenBucket.init], by norm_num [TokenBucket.init]⟩,
    c6_dual_bucket_consume (TokenBucket.init 1 2 0) (TokenBucket.init 1 4 0) 0
      le_rfl le_rfl (by norm_num [TokenBucket.init]) (by norm_num [TokenBucket.init])⟩

/-- A monotonic clock advancing at least one second per sleep makes
`clock i` at least `clock 0 + i`. -/
theorem clock_lower_bound (clock : ℕ → ℚ) (hclock : ∀ m, clock m + 1 ≤ clock (m + 1)) :
    ∀ i : ℕ, clock 0 + i ≤ clock i := by
  intro i
  induction i with
  | zero => simp
  | succ n ih =>
    have := hclock n
    push_cast
    push_cast at ih
    linarith

/-- Refilling a drained bucket whose rate is `0` yields no tokens. -/
theorem refill_dead (lt : TokenBucket) (now : ℚ) (h0 : lt.tokens = 0)
    (hr : lt.rate = 0) (hc : 0 ≤ lt.capacity) :
    (lt.refill now).tokens = 0 ∧ (lt.refill now).rate = 0 ∧
      0 ≤ (lt.refill now).capacity := by
  unfold TokenBucket.refill
  split
  · refine ⟨?_, hr, hc⟩
    simp only [h0, hr, mul_zero, add_zero]
    exact min_eq_right hc
  · exact ⟨h0, hr, hc⟩

/-- With the long-term bucket drained and its refill rate `0`, the
dual-bucket permission check always fails, and the long-term bucket stays
drained. -/
theorem canSendMessage_dead (st lt : TokenBucket) (now : ℚ) (h0 : lt.tokens = 0)
    (hr : lt.rate = 0) (hc : 0 ≤ lt.capacity) :
    (canSendMessage st lt now).1 = false ∧
      (canSendMessage st lt now).2.2.tokens = 0 ∧
      (canSendMessage st lt now).2.2.rate = 0 ∧
      0 ≤ (canSendMessage st lt now).2.2.capacity := by
  unfold canSendMessage
  have hdead := refill_dead lt now h0 hr hc
  by_cases hs : 1 ≤ (st.refill now).tokens
  · have hl : ¬ (1 ≤ (lt.refill now).tokens) := by
      rw [hdead.1]; norm_num
    rw [if_pos hs, if_neg hl]
    exact ⟨rfl, hdead⟩
  · rw [if_neg hs]
    exact ⟨rfl, h0, hr, hc⟩

/-- The wait loop over a dead long-term bucket returns `false` at the first
poll at which more than ten seconds have elapsed, which happens by the
twelfth poll when each sleep lasts at least one second. -/
theorem rpaLoop_dead_times_out (clock : ℕ → ℚ)
    (hclock : ∀ m, clock m + 1 ≤ clock (m + 1)) :
    ∀ fuel i st lt, lt.tokens = 0 → lt.rate = 0 → 0 ≤ lt.capacity →
    i ≤ 11 → 12 ≤ i + fuel →
    ∃ j st2 lt2, rpaLoop clock fuel i st lt = some (false, j, st2, lt2) ∧
      10 < clock j - clock 0 ∧ j ≤ 11 ∧
      ∀ m, i ≤ m → m < j → clock m - clock 0 ≤ 10 := by
  intro fuel
  induction fuel with
  | zero => intro i st lt _ _ _ hi hfuel; omega
  | succ n ih =>
    intro i st lt h0 hr hc hi hfuel
    have hdead := canSendMessage_dead st lt (clock i) h0 hr hc
    rcases hcse : canSendMessage st lt (clock i) with ⟨flag, st', lt'⟩
    rw [hcse] at hdead
    simp only at hdead
    obtain ⟨hflag, hd1, hd2, hd3⟩ := hdead
    subst hflag
    by_cases htime : 10 < clock i - clock 0
    · refine ⟨i, st', lt', ?_, htime, hi, ?_⟩
      · unfold rpaLoop
        rw [hcse]
        simp [htime]
      · intro m him hmi; omega
    · have hle : clock i - clock 0 ≤ 10 := le_of_not_lt htime
      have hibound : (i : ℚ) ≤ 10 := by
        have := clock_lower_bound clock hclock i
        linarith
      have hi10 : i ≤ 10 := by exact_mod_cast hibound
      obtain ⟨j, st2, lt2, hrun, hj10, hj11, hmono⟩ :=
        ih (i + 1) st' lt' hd1 hd2 hd3 (by omega) (by omega)
      refine ⟨j, st2, lt2, ?_, hj10, hj11, ?_⟩
      · unfold rpaLoop
        rw [hcse]
        simp only [htime, if_false, ite_false]
        exact hrun
      · intro m him hmj
        rcases Nat.eq_or_lt_of_le him with hmi | hmi
        · rw [← hmi]; exact hle
        · exact hmono m hmi hmj

/-- Claim C7: for a send-message action with a registered handler, when the
long-term bucket holds `0` tokens and its refill rate is `0`,
`execute_action` polls `_can_send_message` once per sleep interval, returns
`false` at the first poll past the ten-second maximum wait (at most the
twelfth poll when sleeps last at least one second), and the handler is never
invoked. -/
theorem c7_rate_limit_timeout (handlers : ℕ → Option Handler) (action : RPAAction)
    (h : Handler) (clock : ℕ → ℚ) (st lt : TokenBucket) (fuel : ℕ)
    (hreg : handlers action.action_type = some h)
    (hsend : action.is_send_message = true)
    (hlt : lt.tokens = 0) (hlr : lt.rate = 0) (hlc : 0 ≤ lt.capacity)
    (hclock : ∀ m, clock m + 1 ≤ clock (m + 1))
    (hfuel : 12 ≤ fuel) :
    executeAction handlers action clock fuel st lt = some (false, false) ∧
    ∃ j st2 lt2, rpaLoop clock fuel 0 st lt = some (false, j, st2, lt2) ∧
      10 < clock j - clock 0 ∧ j ≤ 11 ∧ ∀ m, m < j → clock m - clock 0 ≤ 10 := by
  obtain ⟨j, st2, lt2, hrun, hj10, hj11, hmono⟩ :=
    rpaLoop_dead_times_out clock hclock fuel 0 st lt hlt hlr hlc (by omega) (by omega)
  constructor
  · unfold executeAction
    rw [hreg, hsend, hrun]
  · exact ⟨j, st2, lt2, hrun, hj10, hj11, fun m hm => hmono m (Nat.zero_le m) hm⟩

/-- A handler registry with a single benign handler at tag `0`, used by the
C7 witness. -/
def okHandlers : ℕ → Option Handler :=
  fun t => if t = 0 then some (fun _ => Except.ok true) else none

/-- A long-term bucket that is drained with refill disabled (rate `0`,
capacity `15` as in the source's default configuration). -/
def deadLongBucket : TokenBucket := { rate := 0, capacity := 15, tokens := 0, last_update := 0 }

/-- Witness for C7: send-message action of tag `0`, clock ticking exactly one
second per poll, fresh short-term bucket, dead long-term bucket, fuel 12. -/
theorem c7_rate_limit_timeout_witness :
    (okHandlers (RPAAction.mk 0 true).action_type = some (fun _ => Except.ok true) ∧
      (RPAAction.mk 0 true).is_send_message = true ∧
      deadLongBucket.tokens = 0 ∧ deadLongBucket.rate = 0 ∧ 0 ≤ deadLongBucket.capacity ∧
      (∀ m : ℕ, ((m : ℚ)) + 1 ≤ (((m + 1 : ℕ) : ℚ))) ∧ 12 ≤ 12) ∧
    (executeAction okHandlers (RPAAction.mk 0 true) (fun i => (i : ℚ)) 12
        (TokenBucket.init 1 2 0) deadLongBucket = some (false, false) ∧
      ∃ j st2 lt2, rpaLoop (fun i => (i : ℚ)) 12 0 (TokenBucket.init 1 2 0) deadLongBucket
          = some (false, j, st2, lt2) ∧
        10 < (fun i : ℕ => (i : ℚ)) j - (fun i : ℕ => (i : ℚ)) 0 ∧ j ≤ 11 ∧
        ∀ m, m < j → (fun i : ℕ => (i : ℚ)) m - (fun i : ℕ => (i : ℚ)) 0 ≤ 10) :=
  ⟨⟨rfl, rfl, rfl, rfl, by norm_num [deadLongBucket], by intro m; push_cast; linarith, le_rfl⟩,
    c7_rate_limit_timeout okHandlers (RPAAction.mk 0 true) (fun _ => Except.ok true)
      (fun i => (i : ℚ)) (TokenBucket.init 1 2 0) deadLongBucket 12
      rfl rfl rfl rfl (by norm_num [deadLongBucket]) (by intro m; push_cast; linarith) le_rfl⟩

/-- Claim C8: whenever `execute_action` terminates and the registered
handler for the action raises, the returned result is `false`: the
`try`/`except` around `handler.execute` absorbs the exception (the model's
return type has no error channel at all, so no handler exception can reach
the caller). -/
theorem c8_handler_exception_returns_false (handlers : ℕ → Option Handler)
    (action : RPAAction) (clock : ℕ → ℚ) (fuel : ℕ) (st lt : TokenBucket)
    (h : Handler) (msg : String) (r invoked : Bool)
    (hreg : handlers action.action_type = some h)
    (herr : h action = Except.error msg)
    (hterm : executeAction handlers action clock fuel st lt = some (r, invoked)) :
    r = false := by
  have hdisp : dispatchHandler h action = false := by
    unfold dispatchHandler
    rw [herr]
  by_cases hsend : action.is_send_message = true
  · rcases hloop : rpaLoop clock fuel 0 st lt with _ | ⟨flag, j, st2, lt2⟩
    · have : executeAction handlers action clock fuel st lt = none := by
        unfold executeAction
        rw [hreg, hsend, hloop]
      rw [this] at hterm
      exact absurd hterm (by simp)
    · cases flag
      · have : executeAction handlers action clock fuel st lt = some (false, false) := by
          unfold executeAction
          rw [hreg, hsend, hloop]
        rw [this] at hterm
        simp only [Option.some_inj, Prod.mk.injEq] at hterm
        exact hterm.1.symm
      · have : executeAction handlers action clock fuel st lt
            = some (dispatchHandler h action, true) := by
          unfold executeAction
          rw [hreg, hsend, hloop]
        rw [this, hdisp] at hterm
        simp only [Option.some_inj, Prod.mk.injEq] at hterm
        exact hterm.1.symm
  · have hsend' : action.is_send_message = false := by
      simpa using hsend
    have : executeAction handlers action clock fuel st lt
        = some (dispatchHandler h action, true) := by
      unfold executeAction
      rw [hreg, hsend']
    rw [this, hdisp] at hterm
    simp only [Option.some_inj, Prod.mk.injEq] at hterm
    exact hterm.1.symm

/-- A handler registry whose handler at tag `5` always raises, used by the
C8 witness. -/
def raisingHandlers : ℕ → Option Handler :=
  fun t => if t = 5 then some (fun _ => Except.error "boom") else none

/-- Witness for C8: a non-send action of tag `5` whose handler raises;
`execute_action` returns `false` (handler invoked, exception absorbed). -/
theorem c8_handler_exception_returns_false_witness :
    (raisingHandlers (RPAAction.mk 5 false).action_type
        = some (fun _ => Except.error "boom") ∧
      (fun _ : RPAAction => (Except.error "boom" : Except String Bool)) (RPAAction.mk 5 false)
        = Except.error "boom" ∧
      executeAction raisingHandlers (RPAAction.mk 5 false) (fun i => (i : ℚ)) 1
        (TokenBucket.init 1 2 0) deadLongBucket = some (false, true)) ∧
    (false : Bool) = false :=
  ⟨⟨rfl, rfl, rfl⟩,
    c8_handler_exception_returns_false raisingHandlers (RPAAction.mk 5 false)
      (fun i => (i : ℚ)) 1 (TokenBucket.init 1 2 0) deadLongBucket
      (fun _ => Except.error "boom") "boom" false true rfl rfl rfl⟩

/-! ### Plugin chain engine (`plugins/plugin_manager.py`,
`plugins/core/plugin_interface.py`) -/

/-- `PluginExcuteResponse`: one result produced by one plugin (actions are
opaque tags here). -/
structure PluginExcuteResponse where
  plugin_name : String
  handled : Bool
  should_stop : Bool
  actions : List ℕ
  deriving Repr, DecidableEq

/-- `PluginExcuteContext`: the mutable context shared by the chain.  The
wrapped message and side-channel map are opaque to every claim and are
omitted. -/
structure PluginExcuteContext where
  responses : List PluginExcuteResponse
  errors : List String
  should_stop : Bool
  deriving Repr, DecidableEq

/-- The fresh context built at the top of `process_message`. -/
def initContext : PluginExcuteContext :=
  { responses := [], errors := [], should_stop := false }

/-- `PluginExcuteContext.add_error`: appends one tagged entry to the error
list. -/
def addError (ctx : PluginExcuteContext) (plugin_name error_message : String) :
    PluginExcuteContext :=
  { ctx with errors := ctx.errors ++ ["Error in " ++ plugin_name ++ ": " ++ error_message] }

/-- One plugin as the chain sees it: name, priority, enabled flag, and the
behaviour of `async handle_message` — the context state after the call,
together with `some e` when the call raised exception `e` (mutations made
before the raise persist, as in Python). -/
structure PluginSpec where
  name : String
  priority : Int
  enabled : Bool
  handle : PluginExcuteContext → PluginExcuteContext × Option String

/-- `PluginManager.process_message`'s loop.  `tr` accumulates the invocation
trace (one entry per `await plugin.handle_message`).  On normal return the
`should_stop` flag is consulted and breaks the loop; on an exception the
engine appends one tagged error entry and continues with the next plugin —
the `should_stop` check in the source sits inside the `try` after the
`await`, so it is skipped when the plugin raises. -/
def processMessageAux : List PluginSpec → PluginExcuteContext → List String →
    PluginExcuteContext × List String
  | [], ctx, tr => (ctx, tr)
  | p :: rest, ctx, tr =>
    match p.handle ctx with
    | (ctx1, none) =>
      if ctx1.should_stop then (ctx1, tr ++ [p.name])
      else processMessageAux rest ctx1 (tr ++ [p.name])
    | (ctx1, some e) => processMessageAux rest (addError ctx1 p.name e) (tr ++ [p.name])

/-- `PluginManager.process_message`: evaluate the chain on a fresh context;
the first component's `responses` field is the returned
`get_responses()` list, the second component is the invocation trace. -/
def processMessage (plugins : List PluginSpec) : PluginExcuteContext × List String :=
  processMessageAux plugins initContext []

/-- The run of an initial chain segment that does not break: `some c` when
evaluating these plugins neither stopped the chain (errors do not stop it),
ending in context `c`. -/
def runThrough : List PluginSpec → PluginExcuteContext → Option PluginExcuteContext
  | [], ctx => some ctx
  | p :: rest, ctx =>
    match p.handle ctx with
    | (ctx1, none) => if ctx1.should_stop then none else runThrough rest ctx1
    | (ctx1, some e) => runThrough rest (addError ctx1 p.name e)

theorem processMessageAux_cons_none (p : PluginSpec) (rest : List PluginSpec)
    (ctx ctx1 : PluginExcuteContext) (tr : List String)
    (hp : p.handle ctx = (ctx1, none)) :
    processMessageAux (p :: rest) ctx tr =
      if ctx1.should_stop then (ctx1, tr ++ [p.name])
      else processMessageAux rest ctx1 (tr ++ [p.name]) := by
  conv_lhs => unfold processMessageAux
  rw [hp]

theorem processMessageAux_cons_some (p : PluginSpec) (rest : List PluginSpec)
    (ctx ctx1 : PluginExcuteContext) (tr : List String) (e : String)
    (hp : p.handle ctx = (ctx1, some e)) :
    processMessageAux (p :: rest) ctx tr
      = processMessageAux rest (addError ctx1 p.name e) (tr ++ [p.name]) := by
  conv_lhs => unfold processMessageAux
  rw [hp]

theorem runThrough_cons_none (p : PluginSpec) (rest : List PluginSpec)
    (ctx ctx1 : PluginExcuteContext) (hp : p.handle ctx = (ctx1, none)) :
    runThrough (p :: rest) ctx
      = if ctx1.should_stop then none else runThrough rest ctx1 := by
  conv_lhs => unfold runThrough
  rw [hp]

theorem runThrough_cons_some (p : PluginSpec) (rest : List PluginSpec)
    (ctx ctx1 : PluginExcuteContext) (e : String) (hp : p.handle ctx = (ctx1, some e)) :
    runThrough (p :: rest) ctx = runThrough rest (addError ctx1 p.name e) := by
  conv_lhs => unfold runThrough
  rw [hp]

/-- When an initial segment runs without breaking, the full evaluation is the
evaluation of the remaining plugins from the segment's final context, the
trace having recorded every segment plugin in order. -/
theorem processMessageAux_append (pre : List PluginSpec) (rest : List PluginSpec)
    (ctx c : PluginExcuteContext) (tr : List String)
    (h : runThrough pre ctx = some c) :
    processMessageAux (pre ++ rest) ctx tr
      = processMessageAux rest c (tr ++ pre.map PluginSpec.name) := by
  induction pre generalizing ctx tr with
  | nil =>
    simp only [runThrough, Option.some_inj] at h
    subst h
    simp
  | cons p ps ih =>
    rcases hp : p.handle ctx with ⟨ctx1, err⟩
    cases err with
    | none =>
      rw [runThrough_cons_none p ps ctx ctx1 hp] at h
      by_cases hstop : ctx1.should_stop
      · rw [if_pos hstop] at h
        exact absurd h (by simp)
      · rw [if_neg hstop] at h
        rw [List.cons_append, processMessageAux_cons_none p (ps ++ rest) ctx ctx1 tr hp,
          if_neg hstop, ih ctx1 (tr ++ [p.name]) h]
        simp
    | some e =>
      rw [runThrough_cons_some p ps ctx ctx1 e hp] at h
      rw [List.cons_append, processMessageAux_cons_some p (ps ++ rest) ctx ctx1 tr e hp,
        ih (addError ctx1 p.name e) (tr ++ [p.name]) h]
      simp

/-- The invocation trace is always the accumulator followed by the names of
an initial segment of the plugin list, in list order. -/
theorem processMessageAux_trace (l : List PluginSpec) :
    ∀ ctx tr, ∃ n, (processMessageAux l ctx tr).2
      = tr ++ (l.take n).map PluginSpec.name := by
  induction l with
  | nil => intro ctx tr; exact ⟨0, by simp [processMessageAux]⟩
  | cons p rest ih =>
    intro ctx tr
    rcases hp : p.handle ctx with ⟨ctx1, err⟩
    cases err with
    | none =>
      by_cases hstop : ctx1.should_stop
      · refine ⟨1, ?_⟩
        rw [processMessageAux_cons_none p rest ctx ctx1 tr hp, if_pos hstop]
        simp
      · obtain ⟨n, hn⟩ := ih ctx1 (tr ++ [p.name])
        refine ⟨n + 1, ?_⟩
        rw [processMessageAux_cons_none p rest ctx ctx1 tr hp, if_neg hstop, hn]
        simp
    | some e =>
      obtain ⟨n, hn⟩ := ih (addError ctx1 p.name e) (tr ++ [p.name])
      refine ⟨n + 1, ?_⟩
      rw [processMessageAux_cons_some p rest ctx ctx1 tr e hp, hn]
      simp

/-- The accumulated trace is never rewritten, only extended. -/
theorem processMessageAux_trace_extends (l : List PluginSpec)
    (ctx : PluginExcuteContext) (tr : List String) :
    tr <+: (processMessageAux l ctx tr).2 := by
  obtain ⟨n, hn⟩ := processMessageAux_trace l ctx tr
  exact ⟨(l.take n).map PluginSpec.name, hn.symm⟩

/-- The first plugin of the remaining list is always invoked. -/
theorem processMessageAux_head_invoked (l : List PluginSpec)
    (ctx : PluginExcuteContext) (tr : List String) :
    (tr ++ (l.take 1).map PluginSpec.name) <+: (processMessageAux l ctx tr).2 := by
  cases l with
  | nil => simp [processMessageAux]
  | cons p rest =>
    rcases hp : p.handle ctx with ⟨ctx1, err⟩
    cases err with
    | none =>
      by_cases hstop : ctx1.should_stop
      · rw [processMessageAux_cons_none p rest ctx ctx1 tr hp, if_pos hstop]
        simp
      · rw [processMessageAux_cons_none p rest ctx ctx1 tr hp, if_neg hstop]
        simpa using processMessageAux_trace_extends rest ctx1 (tr ++ [p.name])
    | some e =>
      rw [processMessageAux_cons_some p rest ctx ctx1 tr e hp]
      simpa using processMessageAux_trace_extends rest (addError ctx1 p.name e) (tr ++ [p.name])

/-- A plugin that appends one response, sets `should_stop`, and then raises
`"boom"` (the mutations persist, as in Python). -/
def stopRaisePlugin : PluginSpec :=
  { name := "q0", priority := 0, enabled := true,
    handle := fun ctx =>
      ({ ctx with
          responses := ctx.responses ++ [⟨"q0", true, true, []⟩],
          should_stop := true }, some "boom") }

/-- A plugin that appends one response and returns normally. -/
def followerPlugin : PluginSpec :=
  { name := "q1", priority := 0, enabled := true,
    handle := fun ctx =>
      ({ ctx with responses := ctx.responses ++ [⟨"q1", true, false, []⟩] }, none) }

/-- A plugin that appends one response, sets `should_stop`, and returns
normally. -/
def stopPlugin : PluginSpec :=
  { name := "s0", priority := 0, enabled := true,
    handle := fun ctx =>
      ({ ctx with
          responses := ctx.responses ++ [⟨"s0", true, true, []⟩],
          should_stop := true }, none) }

/-- Counterexample to claim C2 as stated: the plugin at rank 0 sets
`should_stop` on the shared context, yet the plugin at rank 1 is still
invoked and the response list holds 2 > 0 + 1 entries — because the rank-0
plugin also raised, and the source checks `should_stop` inside the `try`
after the `await`, skipping the check on the exception path. -/
theorem c2_short_circuit_counterexample :
    (stopRaisePlugin.handle initContext).1.should_stop = true ∧
    (processMessage [stopRaisePlugin, followerPlugin]).2 = ["q0", "q1"] ∧
    (processMessage [stopRaisePlugin, followerPlugin]).1.responses.length = 2 :=
  ⟨rfl, rfl, rfl⟩

/-- Claim C2 (amended): if the plugin at priority rank `k` sets
`should_stop` and its `handle_message` returns without raising, the plugins
ranked `k+1..end` are never invoked, and — plugins appending at most one
response each, which the engine does not enforce — the returned response
list holds at most `k+1` entries.  `pre` is the first `k` plugins, `hpre`
states the chain reaches rank `k`, `hk`/`hone` state the at-most-one-
response accounting for ranks `0..k`. -/
theorem c2_short_circuit_amended (pre post : List PluginSpec) (p : PluginSpec)
    (c1 : PluginExcuteContext)
    (hpre : runThrough pre initContext = some c1)
    (hnoerr : (p.handle c1).2 = none)
    (hstop : (p.handle c1).1.should_stop = true)
    (hk : c1.responses.length ≤ pre.length)
    (hone : (p.handle c1).1.responses.length ≤ c1.responses.length + 1) :
    (processMessage (pre ++ p :: post)).2 = pre.map PluginSpec.name ++ [p.name] ∧
    (processMessage (pre ++ p :: post)).1.responses.length ≤ pre.length + 1 := by
  rcases hp : p.handle c1 with ⟨ctxp, err⟩
  rw [hp] at hnoerr hstop hone
  simp only at hnoerr hstop hone
  subst hnoerr
  unfold processMessage
  rw [processMessageAux_append pre (p :: post) initContext c1 [] hpre,
    processMessageAux_cons_none p post c1 ctxp ([] ++ pre.map PluginSpec.name) hp,
    if_pos hstop]
  constructor
  · simp
  · simpa using le_trans hone (by omega)

/-- Witness for the amended C2: `pre = []`, a stopping plugin at rank 0,
one follower that is then never invoked; the trace is exactly `["s0"]` and
the response list has at most one entry. -/
theorem c2_short_circuit_amended_witness :
    (runThrough [] initContext = some initContext ∧
      (stopPlugin.handle initContext).2 = none ∧
      (stopPlugin.handle initContext).1.should_stop = true ∧
      initContext.responses.length ≤ List.length ([] : List PluginSpec) ∧
      (stopPlugin.handle initContext).1.responses.length
        ≤ initContext.responses.length + 1) ∧
    ((processMessage ([] ++ stopPlugin :: [followerPlugin])).2
        = List.map PluginSpec.name [] ++ [stopPlugin.name] ∧
      (processMessage ([] ++ stopPlugin :: [followerPlugin])).1.responses.length
        ≤ List.length ([] : List PluginSpec) + 1) :=
  ⟨⟨rfl, rfl, rfl, Nat.le_refl 0, by decide⟩,
    c2_short_circuit_amended [] [followerPlugin] stopPlugin initContext
      rfl rfl rfl (Nat.le_refl 0) (by decide)⟩

/-- Counterexample to claim C3 as stated: its "unless" clause says that when
the raising plugin has set `should_stop` before raising, subsequent plugins
do not run.  Here the rank-0 plugin sets `should_stop` and raises, yet the
rank-1 plugin still runs: the source skips the `should_stop` check on the
exception path.  (The error entry itself is appended exactly once, tagged
with the raising plugin's name.) -/
theorem c3_error_isolation_counterexample :
    (stopRaisePlugin.handle initContext).1.should_stop = true ∧
    (stopRaisePlugin.handle initContext).2 = some "boom" ∧
    (processMessage [stopRaisePlugin, followerPlugin]).2 = ["q0", "q1"] ∧
    (processMessage [stopRaisePlugin, followerPlugin]).1.errors
      = ["Error in q0: boom"] :=
  ⟨rfl, rfl, rfl, rfl⟩

/-- Claim C3 (amended): when the plugin `p` reached by the chain raises `e`,
the engine appends exactly one error entry, tagged with `p`'s name, on top
of whatever `p` left in the context, and evaluation continues with the
remaining plugins unconditionally — the next plugin (if any) is invoked even
when `p` had set `should_stop` before raising; the stop flag is only
consulted after a later plugin returns normally. -/
theorem c3_error_isolation_amended (pre post : List PluginSpec) (p : PluginSpec)
    (c1 : PluginExcuteContext) (e : String)
    (hpre : runThrough pre initContext = some c1)
    (herr : (p.handle c1).2 = some e) :
    processMessage (pre ++ p :: post)
      = processMessageAux post (addError (p.handle c1).1 p.name e)
          (pre.map PluginSpec.name ++ [p.name]) ∧
    (addError (p.handle c1).1 p.name e).errors
      = (p.handle c1).1.errors ++ ["Error in " ++ p.name ++ ": " ++ e] ∧
    ((pre.map PluginSpec.name ++ [p.name]) ++ (post.take 1).map PluginSpec.name)
      <+: (processMessage (pre ++ p :: post)).2 := by
  rcases hp : p.handle c1 with ⟨ctxp, err⟩
  rw [hp] at herr
  simp only at herr
  subst herr
  have hmain : processMessage (pre ++ p :: post)
      = processMessageAux post (addError ctxp p.name e)
          (pre.map PluginSpec.name ++ [p.name]) := by
    unfold processMessage
    rw [processMessageAux_append pre (p :: post) initContext c1 [] hpre,
      processMessageAux_cons_some p post c1 ctxp ([] ++ pre.map PluginSpec.name) e hp]
    simp
  refine ⟨hmain, rfl, ?_⟩
  rw [hmain]
  exact processMessageAux_head_invoked post (addError ctxp p.name e)
    (pre.map PluginSpec.name ++ [p.name])

/-- Witness for the amended C3: `pre = []`, the stop-and-raise plugin,
one follower; exactly one tagged error entry is appended and the follower
is invoked. -/
theorem c3_error_isolation_amended_witness :
    (runThrough [] initContext = some initContext ∧
      (stopRaisePlugin.handle initContext).2 = some "boom") ∧
    (processMessage ([] ++ stopRaisePlugin :: [followerPlugin])
        = processMessageAux [followerPlugin]
            (addError (stopRaisePlugin.handle initContext).1 stopRaisePlugin.name "boom")
            (List.map PluginSpec.name [] ++ [stopRaisePlugin.name]) ∧
      (addError (stopRaisePlugin.handle initContext).1 stopRaisePlugin.name "boom").errors
        = (stopRaisePlugin.handle initContext).1.errors
            ++ ["Error in " ++ stopRaisePlugin.name ++ ": " ++ "boom"] ∧
      ((List.map PluginSpec.name [] ++ [stopRaisePlugin.name])
          ++ (List.take 1 [followerPlugin]).map PluginSpec.name)
        <+: (processMessage ([] ++ stopRaisePlugin :: [followerPlugin])).2) :=
  ⟨⟨rfl, rfl⟩,
    c3_error_isolation_amended [] [followerPlugin] stopRaisePlugin initContext "boom"
      rfl rfl⟩

/-! ### Plugin loading order (`PluginManager.load_plugins`) -/

/-- Insert a plugin into an already-sorted (descending-priority) list,
before the first element whose priority does not exceed it — the element
being inserted arrived earlier, so it goes before equals. -/
def insertByPriority (p : PluginSpec) : List PluginSpec → List PluginSpec
  | [] => [p]
  | q :: qs => if q.priority ≤ p.priority then p :: q :: qs
               else q :: insertByPriority p qs

/-- Stable sort by descending priority, processing the list front to back.
`list.sort(key=..., reverse=True)` in CPython is documented to be stable
with `reverse=True` preserving the original order of equal keys; a stable
sort by a fixed key is extensionally unique, and this insertion sort is that
sort (sortedness is `pairwise_sortByPriorityDesc`, stability is
`filter_sortByPriorityDesc`). -/
def sortByPriorityDesc : List PluginSpec → List PluginSpec
  | [] => []
  | p :: ps => insertByPriority p (sortByPriorityDesc ps)

/-- `PluginManager.load_plugins`: keep the discovered entry points that are
enabled in configuration (discovery order), then sort by descending
priority, stably.  (Entry points whose loading raises are likewise skipped;
for ordering purposes they behave as disabled.) -/
def loadPlugins (discovered : List PluginSpec) : List PluginSpec :=
  sortByPriorityDesc (discovered.filter (fun p => p.enabled))

theorem mem_insertByPriority (p x : PluginSpec) (l : List PluginSpec) :
    x ∈ insertByPriority p l ↔ x = p ∨ x ∈ l := by
  induction l with
  | nil => simp [insertByPriority]
  | cons q qs ih =>
    by_cases h : q.priority ≤ p.priority
    · simp [insertByPriority, h]
    · simp only [insertByPriority, if_neg h, List.mem_cons, ih]
      tauto

theorem pairwise_insertByPriority (p : PluginSpec) (l : List PluginSpec)
    (hl : List.Pairwise (fun a b => b.priority ≤ a.priority) l) :
    List.Pairwise (fun a b => b.priority ≤ a.priority) (insertByPriority p l) := by
  induction l with
  | nil => simp [insertByPriority]
  | cons q qs ih =>
    rcases List.pairwise_cons.mp hl with ⟨hq, hqs⟩
    by_cases h : q.priority ≤ p.priority
    · rw [insertByPriority, if_pos h]
      refine List.pairwise_cons.mpr ⟨?_, hl⟩
      intro x hx
      rcases List.mem_cons.mp hx with hxq | hxqs
      · rw [hxq]; exact h
      · exact le_trans (hq x hxqs) h
    · rw [insertByPriority, if_neg h]
      refine List.pairwise_cons.mpr ⟨?_, ih hqs⟩
      intro x hx
      rcases (mem_insertByPriority p x qs).mp hx with hxp | hxqs
      · rw [hxp]; exact le_of_lt (lt_of_not_le h)
      · exact hq x hxqs

theorem pairwise_sortByPriorityDesc (l : List PluginSpec) :
    List.Pairwise (fun a b => b.priority ≤ a.priority) (sortByPriorityDesc l) := by
  induction l with
  | nil => simp [sortByPriorityDesc]
  | cons p ps ih => exact pairwise_insertByPriority p (sortByPriorityDesc ps) ih

theorem filter_insertByPriority (p : PluginSpec) (l : List PluginSpec) (k : Int) :
    (insertByPriority p l).filter (fun x => x.priority == k)
      = if p.priority = k then p :: l.filter (fun x => x.priority == k)
        else l.filter (fun x => x.priority == k) := by
  induction l with
  | nil =>
    by_cases hpk : p.priority = k <;>
      simp [insertByPriority, List.filter_cons, beq_iff_eq, hpk]
  | cons q qs ih =>
    by_cases h : q.priority ≤ p.priority
    · rw [insertByPriority, if_pos h]
      by_cases hpk : p.priority = k <;>
        simp [List.filter_cons, beq_iff_eq, hpk]
    · rw [insertByPriority, if_neg h]
      by_cases hpk : p.priority = k <;> by_cases hqk : q.priority = k
      · exact absurd (le_of_eq (hqk.trans hpk.symm)) h
      · simp [List.filter_cons, beq_iff_eq, hpk, hqk, ih]
      · simp [List.filter_cons, beq_iff_eq, hpk, hqk, ih]
      · simp [List.filter_cons, beq_iff_eq, hpk, hqk, ih]

theorem filter_sortByPriorityDesc (l : List PluginSpec) (k : Int) :
    (sortByPriorityDesc l).filter (fun x => x.priority == k)
      = l.filter (fun x => x.priority == k) := by
  induction l with
  | nil => rfl
  | cons p ps ih =>
    rw [sortByPriorityDesc, filter_insertByPriority]
    by_cases hpk : p.priority = k <;>
      simp [List.filter_cons, beq_iff_eq, hpk, ih]

/-- Claim C9: after loading, the plugin list is sorted by descending
priority; for every priority value, the plugins holding it appear in their
discovery (registration) order; and the chain invokes plugins in exactly
this list order (its invocation trace is always the names of an initial
segment of the loaded list). -/
theorem c9_plugin_order (discovered : List PluginSpec) :
    List.Pairwise (fun a b => b.priority ≤ a.priority) (loadPlugins discovered) ∧
    (∀ k : Int, (loadPlugins discovered).filter (fun x => x.priority == k)
        = (discovered.filter (fun p => p.enabled)).filter (fun x => x.priority == k)) ∧
    (∀ ctx tr, ∃ n, (processMessageAux (loadPlugins discovered) ctx tr).2
        = tr ++ ((loadPlugins discovered).take n).map PluginSpec.name) := by
  refine ⟨pairwise_sortByPriorityDesc _, ?_, ?_⟩
  · intro k
    exact filter_sortByPriorityDesc _ k
  · intro ctx tr
    exact processMessageAux_trace (loadPlugins discovered) ctx tr

/-! ### Session dispatcher (`services/core/processor_service.py`,
`services/core/async_plugin_runner.py`)

The dispatcher state: the log of routed events (`arrived`, in the order the
single `_process_loop` thread routes them), the per-session queues
(`session_queues`), the event a session's worker has popped but not yet
submitted (`holding` — at most one per session, because
`_schedule_session_processing` only starts a worker for a session whose
`active_sessions` flag is down, and the owning worker lowers it only when it
stops touching the queue), the `active_sessions` flags, and the order in
which chain evaluations are submitted to the single `AsyncPluginRunner`
event loop (`sched` — `asyncio.run_coroutine_threadsafe` enqueues in call
order).  Events are opaque `ℕ` payloads; keys are the session ids computed
by `_get_session_id`.  `create` is the external
`MessageFactoryService.create_message` collaborator: `none` models both a
factory `None` and an exception inside `_process_message`, either of which
skips the event without submitting it. -/

structure DispatchState where
  arrived : List (String × ℕ)
  queues : String → List ℕ
  holding : String → Option ℕ
  active : String → Bool
  sched : List (String × ℕ)

/-- The interleaved atomic steps of the dispatcher threads:
`arrive` is `_process_loop` routing one intake event (queue append under
`session_queue_lock`, then `_schedule_session_processing` raising the active
flag); `pop` is a session worker's `queue.get`; `submit` is the worker's
`_process_message` — create the message object and, when that succeeds, hand
it to `AsyncPluginRunner.submit_task`; `deactivate` is the worker lowering
the active flag when it sees an empty queue (allowed here even when the
queue is non-empty, which covers the documented race between `Empty` and the
flag store). -/
inductive DispatchOp where
  | arrive (k : String) (e : ℕ)
  | pop (k : String)
  | submit (k : String)
  | deactivate (k : String)

def initDispatch : DispatchState :=
  { arrived := [], queues := fun _ => [], holding := fun _ => none,
    active := fun _ => false, sched := [] }

def dstep (create : ℕ → Option ℕ) (s : DispatchState) : DispatchOp → DispatchState
  | .arrive k e =>
    { s with
        arrived := s.arrived ++ [(k, e)],
        queues := fun j => if j = k then s.queues k ++ [e] else s.queues j,
        active := fun j => if j = k then true else s.active j }
  | .pop k =>
    if s.active k then
      match s.holding k, s.queues k with
      | none, e :: rest =>
        { s with
            holding := fun j => if j = k then some e else s.holding j,
            queues := fun j => if j = k then rest else s.queues j }
      | _, _ => s
    else s
  | .submit k =>
    match s.holding k with
    | some e =>
      { s with
          holding := fun j => if j = k then none else s.holding j,
          sched := s.sched ++ (create e).toList.map (fun m => (k, m)) }
    | none => s
  | .deactivate k =>
    if s.holding k = none then
      { s with active := fun j => if j = k then false else s.active j }
    else s

def runDispatch (create : ℕ → Option ℕ) (ops : List DispatchOp) : DispatchState :=
  ops.foldl (dstep create) initDispatch

/-- The events of a log that belong to session `k`, in log order. -/
def keyEvents (k : String) (l : List (String × ℕ)) : List ℕ :=
  (l.filter (fun q => q.1 == k)).map Prod.snd

theorem keyEvents_append_single (k k' : String) (l : List (String × ℕ)) (e : ℕ) :
    keyEvents k (l ++ [(k', e)])
      = keyEvents k l ++ if k' = k then [e] else [] := by
  unfold keyEvents
  rw [List.filter_append, List.map_append]
  by_cases h : k' = k <;> simp [List.filter_cons, h]

/-- Per-session conservation: the created events of session `k`, in arrival
order, are exactly the already-submitted ones, then the one being processed,
then the still-queued ones. -/
def DispatchInv (create : ℕ → Option ℕ) (s : DispatchState) : Prop :=
  ∀ k, (keyEvents k s.arrived).filterMap create
      = keyEvents k s.sched ++ (s.holding k).toList.filterMap create
          ++ (s.queues k).filterMap create

theorem dstep_inv (create : ℕ → Option ℕ) (s : DispatchState) (op : DispatchOp)
    (h : DispatchInv create s) : DispatchInv create (dstep create s op) := by
  cases op with
  | arrive k e =>
    intro k'
    simp only [dstep]
    rw [keyEvents_append_single k' k s.arrived e]
    by_cases hk : k = k'
    · subst hk
      rw [if_pos rfl, if_pos rfl]
      rw [List.filterMap_append, List.filterMap_append, h k]
      simp [List.append_assoc]
    · rw [if_neg hk, if_neg (Ne.symm hk)]
      simpa using h k'
  | pop k =>
    by_cases hact : s.active k
    · rcases hhold : s.holding k with _ | e0
      · rcases hq : s.queues k with _ | ⟨e, rest⟩
        · intro k'
          simp only [dstep, hact, hhold, hq, if_pos]
          exact h k'
        · intro k'
          simp only [dstep, hact, hhold, hq, if_pos]
          by_cases hk : k' = k
          · subst hk
            rw [if_pos rfl, if_pos rfl]
            have := h k'
            rw [hhold, hq] at this
            rw [this]
            simp [List.filterMap_cons]
            rcases create e with _ | v <;> simp
          · rw [if_neg hk, if_neg hk]
            exact h k'
      · intro k'
        simp only [dstep, hact, hhold, if_pos]
        exact h k'
    · intro k'
      simp only [dstep, hact, if_neg, if_false]
      exact h k'
  | submit k =>
    rcases hhold : s.holding k with _ | e
    · intro k'
      simp only [dstep, hhold]
      exact h k'
    · intro k'
      simp only [dstep, hhold]
      rcases hce : create e with _ | m
      · simp only [Option.toList, List.map_nil, List.append_nil]
        by_cases hk : k' = k
        · subst hk
          rw [if_pos rfl]
          have := h k'
          rw [hhold] at this
          rw [this]
          simp [hce]
        · rw [if_neg hk]
          exact h k'
      · simp only [Option.toList, List.map_cons, List.map_nil]
        by_cases hk : k' = k
        · subst hk
          rw [if_pos rfl]
          have := h k'
          rw [hhold] at this
          rw [keyEvents_append_single k' k' s.sched m, if_pos rfl, this]
          simp [hce]
        · rw [if_neg hk]
          rw [keyEvents_append_single k' k s.sched m, if_neg (Ne.symm hk)]
          simpa using h k'
  | deactivate k =>
    by_cases hhold : s.holding k = none
    · intro k'
      simp only [dstep, hhold, if_pos]
      exact h k'
    · intro k'
      simp only [dstep, hhold, if_neg, if_false]
      exact h k'

theorem runDispatch_inv (create : ℕ → Option ℕ) (ops : List DispatchOp) :
    DispatchInv create (runDispatch create ops) := by
  have hgen : ∀ s, DispatchInv create s →
      DispatchInv create (ops.foldl (dstep create) s) := by
    induction ops with
    | nil => intro s hs; exact hs
    | cons op rest ih =>
      intro s hs
      exact ih (dstep create s op) (dstep_inv create s op hs)
  refine hgen initDispatch ?_
  intro k
  simp [initDispatch, keyEvents]

/-- Claim C1: for every interleaving of dispatcher steps and every session
key, the sequence of that session's chain evaluations submitted to the
execution bridge is a prefix of that session's created events in arrival
order — so if `e1` arrives before `e2` on the same key and `e2`'s evaluation
has been scheduled, `e1`'s was scheduled strictly earlier.  Keys are
unrelated: the theorem holds per key, and `sched` interleaves different
keys' entries in an order the model leaves entirely to the interleaving. -/
theorem c1_session_ordering (create : ℕ → Option ℕ) (ops : List DispatchOp)
    (k : String) :
    keyEvents k (runDispatch create ops).sched
      <+: (keyEvents k (runDispatch create ops).arrived).filterMap create := by
  have hinv := runDispatch_inv create ops k
  exact ⟨(((runDispatch create ops).holding k).toList.filterMap create)
      ++ (((runDispatch create ops).queues k).filterMap create),
    by rw [hinv]; simp [List.append_assoc]⟩

end OmniBot
